import Mathlib

/-!
# Verification of the aipdf backend pipeline (src/backend/main.py)

A shallow embedding of the ingestion and retrieval pipelines of the
FastAPI backend.  Python strings are modelled as `List Char`, raw byte
payloads as `List Nat`, and the external collaborators (Supabase storage,
text extraction via PyPDF2, the OpenAI embedding and chat clients, the
Supabase metadata table) as function-valued parameters; a collaborator
that can raise an exception returns an `Option`, with `none` standing
for the raised exception.  Side effects that the claims observe (vector
upsert calls, generative-model calls) are accumulated into explicit
traces.
-/

/-- Python strings are modelled as lists of characters. -/
abbrev Str := List Char

/-- Raw document bytes, an opaque payload handed to collaborators. -/
abbrev Bytes := List Nat

/-- An embedding vector as returned by the embedding collaborator. -/
abbrev Emb := List Int

/-- Characters stripped by Python's `str.strip()` (`\x0b` is vertical tab,
`\x0c` is form feed). -/
def isPySpace (c : Char) : Bool :=
  c = ' ' || c = '\t' || c = '\n' || c = '\r' || c = '\x0b' || c = '\x0c'

/-- Python `str.strip()`: remove whitespace from both ends. -/
def py_strip (s : Str) : Str :=
  ((s.dropWhile isPySpace).reverse.dropWhile isPySpace).reverse

/-- Python truthiness test `not chunk.strip()`: the chunk is blank
(whitespace-only or empty). -/
def isBlank (s : Str) : Bool :=
  (py_strip s).isEmpty

/-- Slicing loop for `chunk_text`, structurally recursive on a fuel
argument so that it evaluates by kernel reduction; `chunk_text` calls it
with enough fuel (`text.length`) that the fuel never runs out, which
`chunk_go_congr` below makes precise. -/
def chunk_go (m : Nat) : Nat → Str → List Str
  | _, [] => []
  | 0, _ :: _ => []
  | fuel + 1, c :: rest =>
    (c :: rest).take m :: chunk_go m fuel ((c :: rest).drop m)

/-- The function `chunk_text(text, max_chars)` from main.py: successive slices
`text[i : i + max_chars]` for `i in range(0, len(text), max_chars)`.
(For `max_chars = 0` Python's `range` raises; we return `[]` there,
a case no caller exercises: the claims all assume `max_chars > 0`.) -/
def chunk_text (text : Str) (max_chars : Nat) : List Str :=
  if max_chars = 0 then [] else chunk_go max_chars text.length text

/-- Python `str(i)` for a natural number: decimal digits. -/
def natDigits (n : Nat) : Str :=
  Nat.toDigits 10 n

/-- A vector record as built in the upload loop: identifier
`f"{file_id}_{i}"`, the embedding values, and the metadata map
`{file_id, file_name, chunk_index, text}`. -/
structure VecRecord where
  id : Str
  values : Emb
  file_id : Str
  file_name : Str
  chunk_index : Nat
  text : Str
deriving DecidableEq, Repr

/-- The loop `for i, chunk in enumerate(chunks): if not chunk.strip():
continue; ... vectors.append(...)`, with `i` the running enumeration
counter (blank chunks are skipped but still advance `i`). -/
def build_vectors_go (embed : Str → Emb) (fid fname : Str) :
    Nat → List Str → List VecRecord
  | _, [] => []
  | i, c :: rest =>
    if isBlank c then build_vectors_go embed fid fname (i + 1) rest
    else
      { id := fid ++ '_' :: natDigits i
        values := embed c
        file_id := fid
        file_name := fname
        chunk_index := i
        text := c } :: build_vectors_go embed fid fname (i + 1) rest

/-- The list `vectors` accumulated for one document. -/
def build_vectors (embed : Str → Emb) (fid fname : Str) (chunks : List Str) :
    List VecRecord :=
  build_vectors_go embed fid fname 0 chunks

/-! ## The ingestion pipeline (`upload_pdfs` in main.py)

The external collaborators are parameters: `storage_upload` models
`supabase.storage.from_(...).upload(path, bytes)` (raising = `none`),
`extract` models `extract_text_from_pdf_bytes` (PyPDF2 raising on
malformed bytes = `none`), `embed` models `get_embedding`, and
`meta_insert` models `supabase.table("documents").insert(...).execute()`
(raising = `none`; the code wraps only this call in `try/except`).
Fresh `uuid.uuid4()` values are modelled by an id supply `ids : Nat → Str`,
the k-th document of the request receiving `ids k`. -/

structure UFile where
  filename : Str
  bytes : Bytes
deriving DecidableEq

structure Collabs where
  storage_upload : Str → Bytes → Option Unit
  extract : Bytes → Option Str
  embed : Str → Emb
  meta_insert : Str → Str → Str → Option Unit

/-- One entry of the `uploaded_docs` summary list:
`{"file_id": ..., "file_name": ..., "chunks": len(chunks)}`. -/
structure Summary where
  file_id : Str
  file_name : Str
  chunks : Nat
deriving DecidableEq

/-- The observable effects of processing one document: the Pinecone
upsert calls made for it (each a batch of records) and its summary. -/
structure DocEffects where
  upserts : List (List VecRecord)
  summary : Summary
deriving DecidableEq

/-- The body of the `for file in files` loop.  There is no `try/except`
around the storage upload or the extraction: if either raises, the
exception propagates (`none`).  The metadata insert IS wrapped in
`try/except`, so its result is computed and discarded. -/
def process_file (C : Collabs) (file_id : Str) (f : UFile) : Option DocEffects :=
  let path := file_id ++ '/' :: f.filename
  match C.storage_upload path f.bytes with
  | none => none
  | some _ =>
    match C.extract f.bytes with
    | none => none
    | some text =>
      let chunks := chunk_text text 1000
      let vectors := build_vectors C.embed file_id f.filename chunks
      let upsert_calls := if vectors.isEmpty then [] else [vectors]
      let _meta := C.meta_insert file_id f.filename path
      some { upserts := upsert_calls
             summary := { file_id := file_id
                          file_name := f.filename
                          chunks := chunks.length } }

/-- The outcome of an `/upload` request: the upsert calls that actually
happened, the summaries accumulated in `uploaded_docs`, and whether an
uncaught exception escaped the loop (in which case FastAPI returns an
error and the summary list is never delivered to the caller). -/
structure UploadOutcome where
  upserts : List (List VecRecord)
  summaries : List Summary
  errored : Bool
deriving DecidableEq

def upload_go (C : Collabs) (ids : Nat → Str) : Nat → List UFile → UploadOutcome
  | _, [] => { upserts := [], summaries := [], errored := false }
  | k, f :: rest =>
    match process_file C (ids k) f with
    | none => { upserts := [], summaries := [], errored := true }
    | some d =>
      let r := upload_go C ids (k + 1) rest
      { upserts := d.upserts ++ r.upserts
        summaries := d.summary :: r.summaries
        errored := r.errored }

def upload_pdfs (C : Collabs) (ids : Nat → Str) (files : List UFile) :
    UploadOutcome :=
  upload_go C ids 0 files

/-! ## The retrieval pipeline (`ask_question` in main.py)

The question embedding and the Pinecone query are abstracted into the
`matches` list the query returned (the claims quantify over it).  A
match models `match.get("metadata", {}).get("text", "")`: `none` stands
for a match with no metadata or no `text` field. -/

structure QMatch where
  text : Option Str
deriving DecidableEq

/-- The separator `"\n\n---\n\n"` used by `"\n\n---\n\n".join(...)`. -/
def context_sep : Str := "\n\n---\n\n".toList

/-- Python `sep.join(parts)`. -/
def pyJoin (s : Str) : List Str → Str
  | [] => []
  | [p] => p
  | p :: rest => p ++ s ++ pyJoin s rest

/-- The `context_parts` list: each match contributes
`md.get("text", "")`, the empty string when the field is missing. -/
def context_parts (ms : List QMatch) : List Str :=
  ms.map (fun m => m.text.getD [])

def fallback_answer : Str :=
  "I could not find relevant information in the uploaded PDFs.".toList

/-- The outcome of an `/ask` request: the answer string and the calls
made to the generative collaborator (question, context pairs). -/
structure AskOutcome where
  answer : Str
  gen_calls : List (Str × Str)
deriving DecidableEq

/-- The `ask_question` endpoint after the Pinecone query: build `context`, test
`if not context.strip()`, and either return the fixed fallback without
calling OpenAI, or return `generate_answer(question, context)`. -/
def ask_question (gen : Str → Str → Str) (question : Str)
    (ms : List QMatch) : AskOutcome :=
  let context := pyJoin context_sep (context_parts ms)
  if isBlank context then
    { answer := fallback_answer, gen_calls := [] }
  else
    { answer := gen question context, gen_calls := [(question, context)] }

/-! ## Concrete instances used to evaluate the model

Witnesses and counterexamples instantiate the collaborators with these
computable stand-ins; `mkCollabs ext` is a collaborator set whose
storage and metadata calls always succeed, whose embedding is constant,
and whose extraction behaviour is `ext`. -/

def mkCollabs (ext : Bytes → Option Str) : Collabs :=
  { storage_upload := fun _ _ => some ()
    extract := ext
    embed := fun _ => []
    meta_insert := fun _ _ _ => some () }

/-- An id supply: the k-th document receives the decimal string `k`. -/
def exIds : Nat → Str := fun k => natDigits k

/-- Extraction fails on the byte payload `[0]` and returns `"hello"`
otherwise. -/
def CexExtractFail : Collabs :=
  mkCollabs (fun b => if b = [0] then none else some "hello".toList)

/-- The storage upload always raises; extraction would succeed. -/
def CexStorageFail : Collabs :=
  { storage_upload := fun _ _ => none
    extract := fun _ => some "hello".toList
    embed := fun _ => []
    meta_insert := fun _ _ _ => some () }

/-- Extraction returns 1000 spaces followed by `'b'`: the first chunk is
blank and skipped, the second is `"b"`. -/
def CexBlankGap : Collabs :=
  mkCollabs (fun _ => some (List.replicate 1000 ' ' ++ ['b']))

/-- Extraction returns the short text `"a b"`. -/
def CexSmall : Collabs :=
  mkCollabs (fun _ => some "a b".toList)

/-- Extraction returns the whitespace-only text `" "`. -/
def CexBlank : Collabs :=
  mkCollabs (fun _ => some " ".toList)

/-- Extraction returns 2500 repetitions of `'a'`, the spec's end-to-end
scenario text. -/
def CexLong : Collabs :=
  mkCollabs (fun _ => some (List.replicate 2500 'a'))

/-- The fuel argument is irrelevant as long as it bounds the text length. -/
theorem chunk_go_congr (m : Nat) (hm : m ≠ 0) :
    ∀ (fuel fuel' : Nat) (text : Str), text.length ≤ fuel →
      text.length ≤ fuel' → chunk_go m fuel text = chunk_go m fuel' text := by
  intro fuel
  induction fuel with
  | zero =>
    intro fuel' text hf hf'
    have : text = [] := List.eq_nil_of_length_eq_zero (by omega)
    subst this
    cases fuel' <;> rfl
  | succ fuel ih =>
    intro fuel' text hf hf'
    cases text with
    | nil => cases fuel' <;> rfl
    | cons c rest =>
      cases fuel' with
      | zero => simp at hf'
      | succ fuel' =>
        simp only [chunk_go]
        congr 1
        apply ih
        · simp only [List.length_drop, List.length_cons] at hf ⊢
          omega
        · simp only [List.length_drop, List.length_cons] at hf' ⊢
          omega

/-! ## Basic chunker lemmas -/

theorem chunk_text_nil (m : Nat) : chunk_text [] m = [] := by
  unfold chunk_text
  split <;> rfl

theorem chunk_text_zero (text : Str) : chunk_text text 0 = [] := by
  unfold chunk_text
  simp

theorem chunk_text_cons (text : Str) (m : Nat) (hm : m ≠ 0) (ht : text ≠ []) :
    chunk_text text m = text.take m :: chunk_text (text.drop m) m := by
  unfold chunk_text
  simp only [hm, if_false]
  cases text with
  | nil => exact absurd rfl ht
  | cons c rest =>
    simp only [List.length_cons, chunk_go]
    congr 1
    apply chunk_go_congr m hm
    · simp only [List.length_drop, List.length_cons]
      omega
    · exact Nat.le_refl _

/-- Concatenating the chunks reconstructs the text. -/
theorem chunk_text_join (m : Nat) (hm : 0 < m) (text : Str) :
    (chunk_text text m).flatten = text := by
  by_cases ht : text = []
  · subst ht; simp [chunk_text_nil]
  · rw [chunk_text_cons text m (Nat.pos_iff_ne_zero.mp hm) ht]
    rw [List.flatten_cons, chunk_text_join m hm (text.drop m)]
    exact List.take_append_drop m text
termination_by text.length
decreasing_by
  simp only [List.length_drop]
  have : 0 < text.length := List.length_pos.mpr ht
  omega

/-- Every chunk has length at most `max_chars`. -/
theorem chunk_text_length_le (m : Nat) (text : Str) :
    ∀ c ∈ chunk_text text m, c.length ≤ m := by
  intro c hc
  by_cases hm : m = 0
  · subst hm; rw [chunk_text_zero] at hc; cases hc
  · by_cases ht : text = []
    · subst ht; rw [chunk_text_nil] at hc; cases hc
    · rw [chunk_text_cons text m hm ht] at hc
      rcases List.mem_cons.mp hc with hc1 | hc1
      · subst hc1; simp [List.length_take]
      · exact chunk_text_length_le m (text.drop m) c hc1
termination_by text.length
decreasing_by
  simp only [List.length_drop]
  have : 0 < text.length := List.length_pos.mpr ht
  omega

/-- The number of chunks is `ceil(len(text) / max_chars)`. -/
theorem chunk_text_count (m : Nat) (hm : 0 < m) (text : Str) :
    (chunk_text text m).length = (text.length + m - 1) / m := by
  by_cases ht : text = []
  · subst ht
    simp [chunk_text_nil, Nat.div_eq_of_lt (by omega : m - 1 < m)]
  · rw [chunk_text_cons text m (Nat.pos_iff_ne_zero.mp hm) ht]
    rw [List.length_cons, chunk_text_count m hm (text.drop m)]
    have hlen : 0 < text.length := List.length_pos.mpr ht
    simp only [List.length_drop]
    by_cases hle : text.length ≤ m
    · have h1 : text.length - m = 0 := by omega
      rw [h1]
      have h2 : (0 + m - 1) / m = 0 := Nat.div_eq_of_lt (by omega)
      have h3 : (text.length + m - 1) / m = 1 := by
        apply Nat.div_eq_of_lt_le <;> omega
      omega
    · have h1 : text.length - m + m - 1 = text.length - 1 := by omega
      have h2 : text.length + m - 1 = (text.length - 1) + m := by omega
      rw [h1, h2, Nat.add_div_right _ hm]
termination_by text.length
decreasing_by
  simp only [List.length_drop]
  have : 0 < text.length := List.length_pos.mpr ht
  omega

/-- The chunk at position `i` has length `min m (len - m*i)`: every chunk
except the last is full, the last holds the remainder. -/
theorem chunk_text_get_length (m : Nat) (hm : 0 < m) (text : Str) :
    ∀ (i : Nat) (h : i < (chunk_text text m).length),
      ((chunk_text text m).get ⟨i, h⟩).length = min m (text.length - m * i) := by
  by_cases ht : text = []
  · subst ht; intro i h; rw [chunk_text_nil] at h; exact absurd h (by simp)
  · intro i h
    have hm0 : m ≠ 0 := Nat.pos_iff_ne_zero.mp hm
    revert h
    rw [chunk_text_cons text m hm0 ht]
    intro h
    cases i with
    | zero => simp [List.length_take]
    | succ i =>
      simp only [List.get_cons_succ]
      have h' : i < (chunk_text (text.drop m) m).length := by
        simpa using Nat.lt_of_succ_lt_succ h
      rw [chunk_text_get_length m hm (text.drop m) i h']
      simp only [List.length_drop]
      congr 1
      have hlen : 0 < text.length := List.length_pos.mpr ht
      by_cases hle : text.length ≤ m
      · exfalso
        have hdrop : text.drop m = [] := by
          apply List.eq_nil_of_length_eq_zero
          simp only [List.length_drop]; omega
        rw [hdrop, chunk_text_nil] at h'
        exact absurd h' (by simp)
      · have hms : m * (i + 1) = m * i + m := Nat.mul_succ m i
        omega
termination_by text.length
decreasing_by
  simp only [List.length_drop]
  have : 0 < text.length := List.length_pos.mpr ht
  omega

/-! ## Blank-chunk characterisation -/

theorem py_strip_eq_nil_iff (s : Str) :
    py_strip s = [] ↔ ∀ x ∈ s, isPySpace x := by
  unfold py_strip
  rw [List.reverse_eq_nil_iff, List.dropWhile_eq_nil_iff]
  constructor
  · intro hdrop x hx
    have hsplit := List.takeWhile_append_dropWhile (p := isPySpace) (l := s)
    rw [← hsplit] at hx
    rcases List.mem_append.mp hx with hx1 | hx1
    · exact List.mem_takeWhile_imp hx1
    · exact hdrop x (List.mem_reverse.mpr hx1)
  · intro hall x hx
    exact hall x ((List.dropWhile_sublist _).subset (List.mem_reverse.mp hx))

theorem isBlank_iff_all (s : Str) :
    isBlank s = true ↔ ∀ x ∈ s, isPySpace x := by
  unfold isBlank
  rw [List.isEmpty_iff]
  exact py_strip_eq_nil_iff s

/-! ## Chunker: helper lemmas for concrete large inputs -/

/-- Splitting off one exact-size chunk. -/
theorem chunk_text_append_exact (l r : Str) (m : Nat) (hm : m ≠ 0)
    (hl : l.length = m) : chunk_text (l ++ r) m = l :: chunk_text r m := by
  have hlne : l ≠ [] := by
    intro h; subst h; simp at hl; omega
  have hne : l ++ r ≠ [] := by
    intro h; exact hlne (List.append_eq_nil.mp h).1
  rw [chunk_text_cons (l ++ r) m hm hne]
  rw [List.take_left' hl, List.drop_left' hl]

/-- A short non-empty text is a single chunk. -/
theorem chunk_text_short (text : Str) (m : Nat) (hm : m ≠ 0)
    (ht : text ≠ []) (hle : text.length ≤ m) : chunk_text text m = [text] := by
  rw [chunk_text_cons text m hm ht]
  rw [List.take_of_length_le hle, List.drop_eq_nil_of_le hle, chunk_text_nil]

theorem isBlank_replicate_space (n : Nat) :
    isBlank (List.replicate n ' ') = true := by
  rw [isBlank_iff_all]
  intro x hx
  rw [List.eq_of_mem_replicate hx]
  rfl

theorem not_isBlank_of_mem (s : Str) (c : Char) (hc : c ∈ s)
    (hns : isPySpace c = false) : isBlank s = false := by
  by_contra h
  have hb : isBlank s = true := by
    revert h; cases isBlank s <;> simp
  have := (isBlank_iff_all s).mp hb c hc
  rw [hns] at this
  cases this

theorem not_isBlank_replicate_a (n : Nat) (hn : n ≠ 0) :
    isBlank (List.replicate n 'a') = false := by
  apply not_isBlank_of_mem _ 'a'
  · exact List.mem_replicate.mpr ⟨hn, rfl⟩
  · rfl

/-- A text of 1000 spaces followed by `'b'` chunk into a blank chunk and `"b"`. -/
theorem chunk_text_blankgap :
    chunk_text (List.replicate 1000 ' ' ++ ['b']) 1000
      = [List.replicate 1000 ' ', ['b']] := by
  rw [chunk_text_append_exact _ _ 1000 (by norm_num)
    (by rw [List.length_replicate])]
  rw [chunk_text_short ['b'] 1000 (by norm_num) (by decide) (by decide)]

/-- A text of 2500 repetitions of 'a' chunks into slices of 1000, 1000 and 500 characters. -/
theorem chunk_text_a2500 :
    chunk_text (List.replicate 2500 'a') 1000
      = [List.replicate 1000 'a', List.replicate 1000 'a',
         List.replicate 500 'a'] := by
  have e1 : List.replicate 2500 'a'
      = List.replicate 1000 'a' ++ List.replicate 1500 'a' := by
    rw [← List.replicate_add]
  have e2 : List.replicate 1500 'a'
      = List.replicate 1000 'a' ++ List.replicate 500 'a' := by
    rw [← List.replicate_add]
  rw [e1, chunk_text_append_exact _ _ 1000 (by norm_num)
    (by rw [List.length_replicate])]
  rw [e2, chunk_text_append_exact _ _ 1000 (by norm_num)
    (by rw [List.length_replicate])]
  rw [chunk_text_short (List.replicate 500 'a') 1000 (by norm_num)
    (List.ne_nil_of_length_pos (by rw [List.length_replicate]; norm_num))
    (by rw [List.length_replicate]; norm_num)]

/-! ## Claim theorems: the chunker (C4, C10) -/

/-- Claim C4: For every text `T` and positive `max_chars` `M`,
`chunk_text(T, M)` returns an ordered sequence of substrings whose
concatenation reconstructs `T` exactly, every chunk has length ≤ `M`,
the number of chunks is `ceil(len(T)/M)`, and empty `T` yields the
empty sequence. -/
theorem C4_chunker_exact_cover (text : Str) (m : Nat) (hm : 0 < m) :
    (chunk_text text m).flatten = text ∧
    (∀ c ∈ chunk_text text m, c.length ≤ m) ∧
    (chunk_text text m).length = (text.length + m - 1) / m ∧
    (text = [] → chunk_text text m = []) := by
  refine ⟨chunk_text_join m hm text, chunk_text_length_le m text,
    chunk_text_count m hm text, ?_⟩
  intro ht
  subst ht
  exact chunk_text_nil m

theorem C4_chunker_exact_cover_witness :
    0 < 2 ∧
    ((chunk_text "abcde".toList 2).flatten = "abcde".toList ∧
    (∀ c ∈ chunk_text "abcde".toList 2, c.length ≤ 2) ∧
    (chunk_text "abcde".toList 2).length = ("abcde".toList.length + 2 - 1) / 2 ∧
    ("abcde".toList = [] → chunk_text "abcde".toList 2 = [])) :=
  ⟨by decide, C4_chunker_exact_cover "abcde".toList 2 (by decide)⟩

/-- Claim C10: For non-empty `T` and positive `M`: every chunk is
non-empty, every chunk except possibly the last has length exactly `M`,
and the last chunk has length `len(T) - M*(count - 1)`. -/
theorem C10_chunk_sizes (text : Str) (m : Nat) (hm : 0 < m) (ht : text ≠ []) :
    (∀ c ∈ chunk_text text m, c ≠ []) ∧
    (∀ (i : Nat) (h : i < (chunk_text text m).length),
      i + 1 ≠ (chunk_text text m).length →
      ((chunk_text text m).get ⟨i, h⟩).length = m) ∧
    (∀ h : (chunk_text text m).length - 1 < (chunk_text text m).length,
      ((chunk_text text m).get
          ⟨(chunk_text text m).length - 1, h⟩).length
        = text.length - m * ((chunk_text text m).length - 1)) := by
  have hlen : 0 < text.length := List.length_pos.mpr ht
  have hcount := chunk_text_count m hm text
  -- i < chunk count implies the i-th slice start lies inside the text
  have hkey : ∀ i : Nat, i < (chunk_text text m).length → m * i < text.length := by
    intro i hi
    rw [hcount] at hi
    have h1 : m * (i + 1) ≤ m * ((text.length + m - 1) / m) :=
      Nat.mul_le_mul_left m hi
    have h2 : (text.length + m - 1) / m * m ≤ text.length + m - 1 :=
      Nat.div_mul_le_self _ m
    have h3 : m * ((text.length + m - 1) / m)
        = (text.length + m - 1) / m * m := Nat.mul_comm _ _
    have h4 : m * (i + 1) = m * i + m := Nat.mul_succ m i
    omega
  refine ⟨?_, ?_, ?_⟩
  · intro c hc
    rcases List.mem_iff_get.mp hc with ⟨⟨i, hi⟩, hgi⟩
    have := chunk_text_get_length m hm text i hi
    rw [hgi] at this
    have hpos : 0 < c.length := by
      rw [this]
      have := hkey i hi
      omega
    exact List.ne_nil_of_length_pos hpos
  · intro i h hne
    rw [chunk_text_get_length m hm text i h]
    have hsucc : i + 1 < (chunk_text text m).length := by omega
    have := hkey (i + 1) hsucc
    have h4 : m * (i + 1) = m * i + m := Nat.mul_succ m i
    have : m ≤ text.length - m * i := by omega
    omega
  · intro h
    rw [chunk_text_get_length m hm text _ h]
    -- ceil upper bound: len ≤ m * count
    have h5 : m * ((text.length + m - 1) / m) + (text.length + m - 1) % m
        = text.length + m - 1 := Nat.div_add_mod _ m
    have h6 : (text.length + m - 1) % m < m := Nat.mod_lt _ hm
    have h7 : 0 < (chunk_text text m).length := by
      rw [chunk_text_cons text m (Nat.pos_iff_ne_zero.mp hm) ht]
      simp
    have h8 : m * ((chunk_text text m).length - 1) + m
        = m * (chunk_text text m).length := by
      have h9 : m * ((chunk_text text m).length - 1 + 1)
          = m * ((chunk_text text m).length - 1) + m := Nat.mul_succ m _
      have h10 : (chunk_text text m).length - 1 + 1
          = (chunk_text text m).length := by omega
      rw [h10] at h9
      omega
    rw [hcount] at h8
    have hle : text.length - m * ((chunk_text text m).length - 1) ≤ m := by
      rw [hcount]
      omega
    rw [hcount]
    omega

/-! ## Lemmas about the vector-building loop -/

/-- Every record's `chunk_index` lies in `[n, n + number of chunks)`. -/
theorem build_vectors_go_bounds (embed : Str → Emb) (fid fname : Str) :
    ∀ (n : Nat) (cs : List Str) (r : VecRecord),
      r ∈ build_vectors_go embed fid fname n cs →
      n ≤ r.chunk_index ∧ r.chunk_index < n + cs.length := by
  intro n cs
  induction cs generalizing n with
  | nil => intro r hr; cases hr
  | cons c rest ih =>
    intro r hr
    simp only [build_vectors_go] at hr
    by_cases hb : isBlank c
    · rw [if_pos hb] at hr
      have := ih (n + 1) r hr
      simp only [List.length_cons]
      omega
    · rw [if_neg hb] at hr
      rcases List.mem_cons.mp hr with hr1 | hr1
      · subst hr1
        simp only [List.length_cons]
        omega
      · have := ih (n + 1) r hr1
        simp only [List.length_cons]
        omega

/-- The recorded `chunk_index` values are strictly increasing. -/
theorem build_vectors_go_pairwise (embed : Str → Emb) (fid fname : Str) :
    ∀ (n : Nat) (cs : List Str),
      ((build_vectors_go embed fid fname n cs).map
        (fun r => r.chunk_index)).Pairwise (fun a b => a < b) := by
  intro n cs
  induction cs generalizing n with
  | nil => simp [build_vectors_go]
  | cons c rest ih =>
    simp only [build_vectors_go]
    by_cases hb : isBlank c
    · rw [if_pos hb]; exact ih (n + 1)
    · rw [if_neg hb]
      simp only [List.map_cons]
      rw [List.pairwise_cons]
      refine ⟨?_, ih (n + 1)⟩
      intro j hj
      rcases List.mem_map.mp hj with ⟨r, hr, hrj⟩
      have := build_vectors_go_bounds embed fid fname (n + 1) rest r hr
      omega

/-- With no blank chunk, the indices are exactly `n, n+1, ...`. -/
theorem build_vectors_go_range (embed : Str → Emb) (fid fname : Str) :
    ∀ (n : Nat) (cs : List Str), (∀ c ∈ cs, isBlank c = false) →
      (build_vectors_go embed fid fname n cs).map (fun r => r.chunk_index)
        = List.range' n cs.length := by
  intro n cs
  induction cs generalizing n with
  | nil => intro _; simp [build_vectors_go]
  | cons c rest ih =>
    intro hall
    have hc : isBlank c = false := hall c (List.mem_cons_self c rest)
    simp only [build_vectors_go, hc, Bool.false_eq_true, if_false,
      List.map_cons, List.length_cons]
    rw [List.range'_succ]
    rw [ih (n + 1) (fun x hx => hall x (List.mem_cons_of_mem c hx))]

/-- The loop produces one record per non-blank chunk. -/
theorem build_vectors_go_length (embed : Str → Emb) (fid fname : Str) :
    ∀ (n : Nat) (cs : List Str),
      (build_vectors_go embed fid fname n cs).length
        = (cs.filter (fun c => ! isBlank c)).length := by
  intro n cs
  induction cs generalizing n with
  | nil => rfl
  | cons c rest ih =>
    simp only [build_vectors_go, List.filter_cons]
    by_cases hb : isBlank c
    · simp only [hb, if_pos, Bool.not_true]
      rw [if_neg (by simp)]
      exact ih (n + 1)
    · rw [if_neg hb]
      have hb' : isBlank c = false := by revert hb; cases isBlank c <;> simp
      simp only [hb', Bool.not_false, if_pos]
      simp only [List.length_cons]
      rw [ih (n + 1)]

/-- If every chunk is blank, no record is built. -/
theorem build_vectors_go_all_blank (embed : Str → Emb) (fid fname : Str) :
    ∀ (n : Nat) (cs : List Str), (∀ c ∈ cs, isBlank c = true) →
      build_vectors_go embed fid fname n cs = [] := by
  intro n cs
  induction cs generalizing n with
  | nil => intro _; rfl
  | cons c rest ih =>
    intro hall
    have hc : isBlank c = true := hall c (List.mem_cons_self c rest)
    simp only [build_vectors_go, hc, if_pos]
    exact ih (n + 1) (fun x hx => hall x (List.mem_cons_of_mem c hx))

/-- Shape of every record built by the loop: id string, metadata fields,
and text equal to the chunk at its recorded index. -/
theorem build_vectors_go_mem (embed : Str → Emb) (fid fname : Str) :
    ∀ (n : Nat) (cs : List Str) (r : VecRecord),
      r ∈ build_vectors_go embed fid fname n cs →
      r.id = fid ++ '_' :: natDigits r.chunk_index ∧
      r.file_id = fid ∧ r.file_name = fname ∧
      isBlank r.text = false ∧ r.values = embed r.text ∧
      r.chunk_index - n < cs.length ∧
      r.text = cs.getD (r.chunk_index - n) [] := by
  intro n cs
  induction cs generalizing n with
  | nil => intro r hr; cases hr
  | cons c rest ih =>
    intro r hr
    simp only [build_vectors_go] at hr
    by_cases hb : isBlank c
    · rw [if_pos hb] at hr
      obtain ⟨h1, h2, h3, h4, h5, hlt, h6⟩ := ih (n + 1) r hr
      have hge := (build_vectors_go_bounds embed fid fname (n + 1) rest r hr).1
      have hidx : r.chunk_index - n = (r.chunk_index - (n + 1)) + 1 := by omega
      refine ⟨h1, h2, h3, h4, h5, ?_, ?_⟩
      · simp only [List.length_cons]; omega
      · rw [hidx, List.getD_cons_succ]
        exact h6
    · rw [if_neg hb] at hr
      rcases List.mem_cons.mp hr with hr1 | hr1
      · subst hr1
        have hb' : isBlank c = false := by revert hb; cases isBlank c <;> simp
        refine ⟨rfl, rfl, rfl, hb', rfl, ?_, ?_⟩
        · simp
        · simp
      · obtain ⟨h1, h2, h3, h4, h5, hlt, h6⟩ := ih (n + 1) r hr1
        have hge := (build_vectors_go_bounds embed fid fname (n + 1) rest r hr1).1
        have hidx : r.chunk_index - n = (r.chunk_index - (n + 1)) + 1 := by omega
        refine ⟨h1, h2, h3, h4, h5, ?_, ?_⟩
        · simp only [List.length_cons]; omega
        · rw [hidx, List.getD_cons_succ]
          exact h6

/-! ## Lemmas about one document's processing -/

/-- When storage and extraction succeed, `process_file` returns the
summary and conditional upsert call built from the extracted text. -/
theorem process_file_ok (C : Collabs) (fid : Str) (f : UFile) (text : Str)
    (hs : C.storage_upload (fid ++ '/' :: f.filename) f.bytes = some ())
    (he : C.extract f.bytes = some text) :
    process_file C fid f = some
      { upserts :=
          if (build_vectors C.embed fid f.filename (chunk_text text 1000)).isEmpty
          then [] else [build_vectors C.embed fid f.filename (chunk_text text 1000)]
        summary := { file_id := fid
                     file_name := f.filename
                     chunks := (chunk_text text 1000).length } } := by
  simp only [process_file, hs, he]

/-- When storage or extraction raises, the exception propagates out of
the whole upload loop: no summary list is produced, `errored` is set. -/
theorem upload_head_fails (C : Collabs) (ids : Nat → Str) (f : UFile)
    (rest : List UFile) (hpf : process_file C (ids 0) f = none) :
    upload_pdfs C ids (f :: rest)
      = { upserts := [], summaries := [], errored := true } := by
  simp only [upload_pdfs, upload_go, hpf]

/-- The metadata-store collaborator never influences the outcome: its
result is swallowed by the `try/except` in the loop. -/
theorem upload_go_meta_irrelevant (C : Collabs)
    (mi : Str → Str → Str → Option Unit) (ids : Nat → Str) :
    ∀ (k : Nat) (files : List UFile),
      upload_go { C with meta_insert := mi } ids k files
        = upload_go C ids k files := by
  intro k files
  induction files generalizing k with
  | nil => rfl
  | cons f rest ih =>
    simp only [upload_go]
    have hpf : process_file { C with meta_insert := mi } (ids k) f
        = process_file C (ids k) f := rfl
    rw [hpf, ih (k + 1)]

/-! ## Claim theorems: ingestion error handling (C1, C3) -/

/-- Claim C1, counterexample: In a two-document batch where the first
document's extraction raises and the second's would succeed (processed
alone, it yields a summary entry), the request errors with no upserts
and no summary entries at all: document B is neither indexed nor
reported, refuting per-document isolation. -/
theorem C1_counterexample :
    upload_pdfs CexExtractFail exIds
        [{ filename := "a.pdf".toList, bytes := [0] },
         { filename := "b.pdf".toList, bytes := [1] }]
      = { upserts := [], summaries := [], errored := true } ∧
    (upload_pdfs CexExtractFail exIds
        [{ filename := "b.pdf".toList, bytes := [1] }]).summaries
      = [{ file_id := "0".toList, file_name := "b.pdf".toList, chunks := 1 }] ∧
    (upload_pdfs CexExtractFail exIds
        [{ filename := "b.pdf".toList, bytes := [1] }]).upserts ≠ [] := by
  refine ⟨by decide, by decide, by decide⟩

/-- Claim C1, amended: If extraction of the first document of a batch
raises, the exception propagates: the whole `/upload` request fails,
no later document is chunked, embedded or upserted, and no summary list
is returned.  Failure is an operation-level failure, not per-document. -/
theorem C1_extraction_failure_aborts_batch (C : Collabs) (ids : Nat → Str)
    (f : UFile) (rest : List UFile) (hex : C.extract f.bytes = none) :
    upload_pdfs C ids (f :: rest)
      = { upserts := [], summaries := [], errored := true } := by
  apply upload_head_fails
  simp only [process_file]
  cases hst : C.storage_upload (ids 0 ++ '/' :: f.filename) f.bytes with
  | none => rfl
  | some u => rw [hex]

theorem C1_extraction_failure_aborts_batch_witness :
    CexExtractFail.extract [0] = none ∧
    upload_pdfs CexExtractFail exIds
        [{ filename := "a.pdf".toList, bytes := [0] },
         { filename := "b.pdf".toList, bytes := [1] }]
      = { upserts := [], summaries := [], errored := true } :=
  ⟨by decide,
   C1_extraction_failure_aborts_batch CexExtractFail exIds
     { filename := "a.pdf".toList, bytes := [0] }
     [{ filename := "b.pdf".toList, bytes := [1] }] (by decide)⟩

/-- Claim C3, counterexample: A document whose storage upload raises is
not processed at all — the exception propagates to the caller
(`errored = true`), nothing is upserted and no summary is returned —
even though its extraction would have succeeded with non-blank text. -/
theorem C3_counterexample :
    upload_pdfs CexStorageFail exIds
        [{ filename := "a.pdf".toList, bytes := [1] }]
      = { upserts := [], summaries := [], errored := true } ∧
    CexStorageFail.extract [1] = some "hello".toList := by
  refine ⟨by decide, rfl⟩

/-- Claim C3, amended: A storage-write failure is NOT caught: it
propagates and aborts that document's (and the whole request's)
processing, so the document is not extracted, chunked, embedded or
upserted.  Only the metadata-table insert is fire-and-forget: its
collaborator never influences the outcome. -/
theorem C3_storage_failure_propagates :
    (∀ (C : Collabs) (ids : Nat → Str) (f : UFile) (rest : List UFile),
      C.storage_upload (ids 0 ++ '/' :: f.filename) f.bytes = none →
      upload_pdfs C ids (f :: rest)
        = { upserts := [], summaries := [], errored := true }) ∧
    (∀ (C : Collabs) (mi : Str → Str → Str → Option Unit) (ids : Nat → Str)
      (files : List UFile),
      upload_pdfs { C with meta_insert := mi } ids files
        = upload_pdfs C ids files) := by
  constructor
  · intro C ids f rest hst
    apply upload_head_fails
    simp only [process_file, hst]
  · intro C mi ids files
    exact upload_go_meta_irrelevant C mi ids 0 files

theorem C3_storage_failure_propagates_witness :
    CexStorageFail.storage_upload
        ("0".toList ++ '/' :: "a.pdf".toList) [1] = none ∧
    upload_pdfs CexStorageFail exIds
        [{ filename := "a.pdf".toList, bytes := [1] }]
      = { upserts := [], summaries := [], errored := true } ∧
    upload_pdfs { CexSmall with meta_insert := fun _ _ _ => none } exIds
        [{ filename := "a.pdf".toList, bytes := [1] }]
      = upload_pdfs CexSmall exIds
        [{ filename := "a.pdf".toList, bytes := [1] }] :=
  ⟨rfl,
   C3_storage_failure_propagates.1 CexStorageFail exIds
     { filename := "a.pdf".toList, bytes := [1] } [] rfl,
   C3_storage_failure_propagates.2 CexSmall (fun _ _ _ => none) exIds
     [{ filename := "a.pdf".toList, bytes := [1] }]⟩

/-! ## Claim theorems: chunk_index invariant (C2) -/

/-- Claim C2, counterexample: A document whose extracted text is 1000
spaces followed by `'b'` produces two chunks, the first blank; the
single upserted record carries `chunk_index = 1`, not the contiguous
`{0}` the claim requires for one upserted record
(`List.range 1 = [0]`). -/
theorem C2_counterexample :
    (process_file CexBlankGap "d".toList
        { filename := "f.pdf".toList, bytes := [] }).map
      (fun d => d.upserts.flatten.map (fun r => r.chunk_index)) = some [1] ∧
    (process_file CexBlankGap "d".toList
        { filename := "f.pdf".toList, bytes := [] }).map
      (fun d => d.upserts.flatten.length) = some 1 ∧
    some [1] ≠ some (List.range 1) := by
  have hchunks := chunk_text_blankgap
  have hpf := process_file_ok CexBlankGap "d".toList
    { filename := "f.pdf".toList, bytes := [] }
    (List.replicate 1000 ' ' ++ ['b']) rfl rfl
  rw [hpf, hchunks]
  have hb1 : isBlank (List.replicate 1000 ' ') = true := isBlank_replicate_space 1000
  have hb2 : isBlank ['b'] = false := by decide
  simp only [build_vectors, build_vectors_go, hb1, if_true, hb2,
    Bool.false_eq_true, if_false]
  refine ⟨rfl, rfl, by decide⟩

/-- Claim C2, amended: The `chunk_index` values of the records upserted
for a document are the positions of its non-blank chunks in the
chunker's output: strictly increasing (no repeats, original-text
order) and below the total chunk count; they are exactly the contiguous
`{0, ..., N-1}` when no chunk is blank, but blank chunks leave gaps,
since the enumeration counter advances over skipped chunks. -/
theorem C2_chunk_index_strictly_increasing (C : Collabs) (fid : Str)
    (f : UFile) (text : Str)
    (hs : C.storage_upload (fid ++ '/' :: f.filename) f.bytes = some ())
    (he : C.extract f.bytes = some text) :
    ∀ idxs : List Nat,
      (process_file C fid f).map
          (fun d => d.upserts.flatten.map (fun r => r.chunk_index)) = some idxs →
      idxs.Pairwise (fun a b => a < b) ∧
      (∀ i ∈ idxs, i < (chunk_text text 1000).length) ∧
      ((∀ c ∈ chunk_text text 1000, isBlank c = false) →
        idxs = List.range (chunk_text text 1000).length) := by
  intro idxs hidx
  rw [process_file_ok C fid f text hs he] at hidx
  simp only [Option.map_some'] at hidx
  have hflat :
      (if (build_vectors C.embed fid f.filename (chunk_text text 1000)).isEmpty
        then ([] : List (List VecRecord))
        else [build_vectors C.embed fid f.filename (chunk_text text 1000)]).flatten
      = build_vectors C.embed fid f.filename (chunk_text text 1000) := by
    by_cases hv :
        (build_vectors C.embed fid f.filename (chunk_text text 1000)).isEmpty
    · rw [if_pos hv, List.isEmpty_iff.mp hv]
      rfl
    · rw [if_neg hv]
      simp
  rw [hflat] at hidx
  rcases Option.some.injEq _ _ ▸ hidx with rfl
  refine ⟨build_vectors_go_pairwise C.embed fid f.filename 0 _, ?_, ?_⟩
  · intro i hi
    rcases List.mem_map.mp hi with ⟨r, hr, hri⟩
    have := build_vectors_go_bounds C.embed fid f.filename 0 _ r hr
    omega
  · intro hall
    rw [List.range_eq_range']
    exact build_vectors_go_range C.embed fid f.filename 0 _ hall

theorem C2_chunk_index_strictly_increasing_witness :
    CexSmall.storage_upload ("d".toList ++ '/' :: "f.pdf".toList) [1]
        = some () ∧
    CexSmall.extract [1] = some "a b".toList ∧
    (process_file CexSmall "d".toList
        { filename := "f.pdf".toList, bytes := [1] }).map
      (fun d => d.upserts.flatten.map (fun r => r.chunk_index)) = some [0] ∧
    (([0] : List Nat).Pairwise (fun a b => a < b) ∧
      (∀ i ∈ ([0] : List Nat), i < (chunk_text "a b".toList 1000).length) ∧
      ((∀ c ∈ chunk_text "a b".toList 1000, isBlank c = false) →
        ([0] : List Nat) = List.range (chunk_text "a b".toList 1000).length)) :=
  ⟨rfl, rfl, by decide,
   C2_chunk_index_strictly_increasing CexSmall "d".toList
     { filename := "f.pdf".toList, bytes := [1] } "a b".toList rfl rfl
     [0] (by decide)⟩

/-! ## Claim theorems: summary counts, record shape, blank documents
(C7, C8, C9) -/

/-- Claim C7: The `chunks` count in a document's summary entry is the
total number of chunks produced by the chunker — blank chunks included —
while the number of records actually upserted equals the number of
non-blank chunks only. -/
theorem C7_summary_counts_all_chunks (C : Collabs) (fid : Str) (f : UFile)
    (text : Str)
    (hs : C.storage_upload (fid ++ '/' :: f.filename) f.bytes = some ())
    (he : C.extract f.bytes = some text) :
    (process_file C fid f).map (fun d => d.summary.chunks)
      = some (chunk_text text 1000).length ∧
    (process_file C fid f).map (fun d => d.upserts.flatten.length)
      = some ((chunk_text text 1000).filter (fun c => ! isBlank c)).length := by
  rw [process_file_ok C fid f text hs he]
  refine ⟨rfl, ?_⟩
  simp only [Option.map_some']
  congr 1
  have hlen : (build_vectors C.embed fid f.filename (chunk_text text 1000)).length
      = ((chunk_text text 1000).filter (fun c => ! isBlank c)).length :=
    build_vectors_go_length C.embed fid f.filename 0 _
  by_cases hv :
      (build_vectors C.embed fid f.filename (chunk_text text 1000)).isEmpty
  · rw [if_pos hv]
    rw [List.isEmpty_iff.mp hv] at hlen
    simpa using hlen
  · rw [if_neg hv]
    simpa using hlen

theorem C7_summary_counts_all_chunks_witness :
    CexBlank.storage_upload ("d".toList ++ '/' :: "f.pdf".toList) [1]
        = some () ∧
    CexBlank.extract [1] = some " ".toList ∧
    ((process_file CexBlank "d".toList
        { filename := "f.pdf".toList, bytes := [1] }).map
          (fun d => d.summary.chunks) = some (chunk_text " ".toList 1000).length ∧
      (process_file CexBlank "d".toList
        { filename := "f.pdf".toList, bytes := [1] }).map
          (fun d => d.upserts.flatten.length)
        = some ((chunk_text " ".toList 1000).filter
            (fun c => ! isBlank c)).length) ∧
    (chunk_text " ".toList 1000).length = 1 ∧
    ((chunk_text " ".toList 1000).filter (fun c => ! isBlank c)).length = 0 :=
  ⟨rfl, rfl,
   C7_summary_counts_all_chunks CexBlank "d".toList
     { filename := "f.pdf".toList, bytes := [1] } " ".toList rfl rfl,
   by decide, by decide⟩

/-- Claim C9: A document all of whose chunks are blank (including the
empty-text case, which has no chunks at all) builds zero vector records
and makes no upsert call; this is not an error, and the document still
receives its summary entry with the full chunk count. -/
theorem C9_all_blank_no_upsert (C : Collabs) (fid : Str) (f : UFile)
    (text : Str)
    (hs : C.storage_upload (fid ++ '/' :: f.filename) f.bytes = some ())
    (he : C.extract f.bytes = some text)
    (hblank : ∀ c ∈ chunk_text text 1000, isBlank c = true) :
    process_file C fid f = some
      { upserts := []
        summary := { file_id := fid
                     file_name := f.filename
                     chunks := (chunk_text text 1000).length } } := by
  rw [process_file_ok C fid f text hs he]
  have hv : build_vectors C.embed fid f.filename (chunk_text text 1000) = [] :=
    build_vectors_go_all_blank C.embed fid f.filename 0 _ hblank
  rw [hv]
  rfl

theorem C9_all_blank_no_upsert_witness :
    CexBlank.storage_upload ("d".toList ++ '/' :: "f.pdf".toList) [1]
        = some () ∧
    CexBlank.extract [1] = some " ".toList ∧
    (∀ c ∈ chunk_text " ".toList 1000, isBlank c = true) ∧
    process_file CexBlank "d".toList
        { filename := "f.pdf".toList, bytes := [1] } = some
      { upserts := []
        summary := { file_id := "d".toList
                     file_name := "f.pdf".toList
                     chunks := (chunk_text " ".toList 1000).length } } :=
  ⟨rfl, rfl, by decide,
   C9_all_blank_no_upsert CexBlank "d".toList
     { filename := "f.pdf".toList, bytes := [1] } " ".toList rfl rfl
     (by decide)⟩

/-- Claim C10, witness. -/
theorem C10_chunk_sizes_witness :
    0 < 2 ∧ "abcde".toList ≠ [] ∧
    ((∀ c ∈ chunk_text "abcde".toList 2, c ≠ []) ∧
    (∀ (i : Nat) (h : i < (chunk_text "abcde".toList 2).length),
      i + 1 ≠ (chunk_text "abcde".toList 2).length →
      ((chunk_text "abcde".toList 2).get ⟨i, h⟩).length = 2) ∧
    (∀ h : (chunk_text "abcde".toList 2).length - 1
        < (chunk_text "abcde".toList 2).length,
      ((chunk_text "abcde".toList 2).get
          ⟨(chunk_text "abcde".toList 2).length - 1, h⟩).length
        = "abcde".toList.length
          - 2 * ((chunk_text "abcde".toList 2).length - 1))) :=
  ⟨by decide, by decide, C10_chunk_sizes "abcde".toList 2 (by decide) (by decide)⟩

/-- Claim C8: Every upserted record has identifier
`f"{file_id}_{chunk_index}"` and metadata carrying the document id, the
file name, the chunk index and the chunk's text; and the end-to-end
scenario: a document of 2500 non-blank characters yields exactly three
records with ids `{doc}_0`, `{doc}_1`, `{doc}_2`. -/
theorem C8_record_identifier_shape :
    (∀ (embed : Str → Emb) (fid fname : Str) (cs : List Str) (r : VecRecord),
      r ∈ build_vectors embed fid fname cs →
      r.id = fid ++ '_' :: natDigits r.chunk_index ∧
      r.file_id = fid ∧ r.file_name = fname ∧
      r.chunk_index < cs.length ∧ r.text = cs.getD r.chunk_index []) ∧
    (∀ (C : Collabs) (fid : Str) (f : UFile),
      C.storage_upload (fid ++ '/' :: f.filename) f.bytes = some () →
      C.extract f.bytes = some (List.replicate 2500 'a') →
      (process_file C fid f).map
          (fun d => d.upserts.map (fun batch => batch.map (fun r => r.id)))
        = some [[fid ++ "_0".toList, fid ++ "_1".toList,
                 fid ++ "_2".toList]]) := by
  constructor
  · intro embed fid fname cs r hr
    obtain ⟨h1, h2, h3, _, _, hlt, h6⟩ :=
      build_vectors_go_mem embed fid fname 0 cs r hr
    simp only [Nat.sub_zero] at hlt h6
    exact ⟨h1, h2, h3, hlt, h6⟩
  · intro C fid f hs he
    rw [process_file_ok C fid f _ hs he, chunk_text_a2500]
    have hba : isBlank (List.replicate 1000 'a') = false :=
      not_isBlank_replicate_a 1000 (by norm_num)
    have hbc : isBlank (List.replicate 500 'a') = false :=
      not_isBlank_replicate_a 500 (by norm_num)
    simp only [build_vectors, build_vectors_go, hba, hbc,
      Bool.false_eq_true, if_false, List.isEmpty_cons, Option.map_some',
      List.map_cons, List.map_nil]
    rfl

theorem C8_record_identifier_shape_witness :
    (({ id := "d_0".toList, values := [], file_id := "d".toList,
        file_name := "f".toList, chunk_index := 0,
        text := "x".toList } : VecRecord)
      ∈ build_vectors (fun _ => []) "d".toList "f".toList ["x".toList]) ∧
    (({ id := "d_0".toList, values := [], file_id := "d".toList,
        file_name := "f".toList, chunk_index := 0,
        text := "x".toList } : VecRecord).id
        = "d".toList ++ '_' :: natDigits 0 ∧
      ("d".toList : Str) = "d".toList ∧ ("f".toList : Str) = "f".toList ∧
      0 < 1 ∧ ("x".toList : Str) = ["x".toList].getD 0 []) ∧
    CexLong.storage_upload ("d".toList ++ '/' :: "f.pdf".toList) [1]
        = some () ∧
    CexLong.extract [1] = some (List.replicate 2500 'a') ∧
    (process_file CexLong "d".toList
        { filename := "f.pdf".toList, bytes := [1] }).map
        (fun d => d.upserts.map (fun batch => batch.map (fun r => r.id)))
      = some [["d".toList ++ "_0".toList, "d".toList ++ "_1".toList,
               "d".toList ++ "_2".toList]] :=
  ⟨by decide,
   C8_record_identifier_shape.1 (fun _ => []) "d".toList "f".toList
     ["x".toList] _ (by decide),
   rfl, rfl,
   C8_record_identifier_shape.2 CexLong "d".toList
     { filename := "f.pdf".toList, bytes := [1] } rfl rfl⟩

/-! ## Claim theorems: retrieval (C5, C6) -/

/-- Claim C5: If the query returned no matches, or the matches' texts join
to a whitespace-only string, `ask_question` returns exactly the fixed
fallback answer and never calls the generative collaborator. -/
theorem C5_empty_context_fallback (gen : Str → Str → Str) (q : Str)
    (ms : List QMatch)
    (h : ms = [] ∨ ∀ x ∈ pyJoin context_sep (context_parts ms), isPySpace x) :
    ask_question gen q ms = { answer := fallback_answer, gen_calls := [] } := by
  have hb : isBlank (pyJoin context_sep (context_parts ms)) = true := by
    rcases h with h | h
    · subst h; rfl
    · exact (isBlank_iff_all _).mpr h
  simp only [ask_question, hb, if_true]

theorem C5_empty_context_fallback_witness :
    (([{ text := some " ".toList }] : List QMatch) = [] ∨
      ∀ x ∈ pyJoin context_sep
        (context_parts [{ text := some " ".toList }]), isPySpace x) ∧
    ask_question (fun _ _ => "X".toList) "q".toList
        [{ text := some " ".toList }]
      = { answer := fallback_answer, gen_calls := [] } :=
  ⟨Or.inr (by decide),
   C5_empty_context_fallback (fun _ _ => "X".toList) "q".toList
     [{ text := some " ".toList }] (Or.inr (by decide))⟩

/-- Claim C6: For a non-empty match list, any call made to the generative
collaborator passes exactly the context obtained by joining the matches'
texts — in the order returned, a missing text field contributing the
empty string — with the separator `"\n\n---\n\n"`. -/
theorem C6_context_join_order (gen : Str → Str → Str) (q : Str)
    (ms : List QMatch) (_hne : ms ≠ []) :
    ∀ pr ∈ (ask_question gen q ms).gen_calls,
      pr = (q, pyJoin context_sep (ms.map (fun mm => mm.text.getD []))) := by
  intro pr hpr
  simp only [ask_question] at hpr
  by_cases hb : isBlank (pyJoin context_sep (context_parts ms))
  · rw [if_pos hb] at hpr
    cases hpr
  · rw [if_neg hb] at hpr
    rcases List.mem_cons.mp hpr with hpr1 | hpr1
    · subst hpr1; rfl
    · cases hpr1

theorem C6_context_join_order_witness :
    (([{ text := some "A".toList }, { text := none },
       { text := some "B".toList }] : List QMatch) ≠ []) ∧
    ("q".toList, "A\n\n---\n\n\n\n---\n\nB".toList)
      ∈ (ask_question (fun _ _ => []) "q".toList
          [{ text := some "A".toList }, { text := none },
           { text := some "B".toList }]).gen_calls ∧
    ("q".toList, "A\n\n---\n\n\n\n---\n\nB".toList)
      = ("q".toList, pyJoin context_sep
          (([{ text := some "A".toList }, { text := none },
             { text := some "B".toList }] : List QMatch).map
            (fun mm => mm.text.getD []))) ∧
    ("q2".toList, "A\n\n---\n\nB".toList)
      ∈ (ask_question (fun _ _ => []) "q2".toList
          [{ text := some "A".toList },
           { text := some "B".toList }]).gen_calls ∧
    ("q2".toList, "A\n\n---\n\nB".toList)
      = ("q2".toList, pyJoin context_sep
          (([{ text := some "A".toList },
             { text := some "B".toList }] : List QMatch).map
            (fun mm => mm.text.getD []))) :=
  ⟨by decide, by decide,
   C6_context_join_order (fun _ _ => []) "q".toList
     [{ text := some "A".toList }, { text := none },
      { text := some "B".toList }] (by decide) _ (by decide),
   by decide,
   C6_context_join_order (fun _ _ => []) "q2".toList
     [{ text := some "A".toList }, { text := some "B".toList }]
     (by decide) _ (by decide)⟩
